import Mathlib

/-!
# Verification of the `fs0` process-execution orchestrator (`Exec0`)

Shallow embedding of `src/src/exec0.ts` (the most complete variant of the
module). JavaScript values are modelled as follows:

* a JS object whose properties may be absent becomes a Lean structure with
  `Option` fields (`none` = property absent or `undefined`; observationally
  these coincide for every `??`/`Object.assign` read the claims exercise);
* `Object.assign(target, src)` becomes a field-wise overlay where a field
  present in `src` overwrites the one in `target`;
* machine integers (exit codes) become `Int`;
* code that `throw`s becomes `Except String`.

All definitions are computable so every statement can be checked on
concrete inputs.
-/

namespace Exec0

/-- `Exec0.CommandOrParts`: a command as one shell string or an argv list. -/
inductive CommandOrParts where
  | str (s : String)
  | parts (ps : List String)
deriving DecidableEq, Repr

/-- `Exec0.Interactive`: the four interaction modes of `one`.
`interactive === true` is the Inherit mode, `'tee'` is Tee,
`interactive === false` is the Silent capture mode, `'real'` is RealShell. -/
inductive Interactive where
  | inherit
  | tee
  | silentCap
  | real
deriving DecidableEq, Repr

/-- The fields of `Exec0.Options` relevant to the claims, each `Option`
because a JS caller may omit it (`env`, `timeoutMs`, `log` and `preferLocal`
are omitted from the model: no claim depends on them flowing through the
normalizer). -/
structure OptionsR where
  command : Option CommandOrParts := none
  cwd : Option String := none
  interactive : Option Interactive := none
  silent : Option Bool := none
  colors : Option Bool := none
  throwNonZero : Option Bool := none
  prefixLabel : Option String := none
  prefixSuffix : Option String := none
deriving DecidableEq, Repr

/-- `Object.assign(target, src)`: every property present in `src` overwrites
the corresponding property of `target`; absent properties of `src` leave
`target`'s value in place. -/
def assign (t s : OptionsR) : OptionsR where
  command := match s.command with | some x => some x | none => t.command
  cwd := match s.cwd with | some x => some x | none => t.cwd
  interactive := match s.interactive with | some x => some x | none => t.interactive
  silent := match s.silent with | some x => some x | none => t.silent
  colors := match s.colors with | some x => some x | none => t.colors
  throwNonZero := match s.throwNonZero with | some x => some x | none => t.throwNonZero
  prefixLabel := match s.prefixLabel with | some x => some x | none => t.prefixLabel
  prefixSuffix := match s.prefixSuffix with | some x => some x | none => t.prefixSuffix

/-- One positional argument of the variadic `one`/`oneCommand` surface:
a string, an options object, `undefined`, or an argv array (which
`normalizeOneOptions` classifies as neither a string nor an options object,
since `isOptions` excludes arrays). -/
inductive Arg where
  | str (s : String)
  | obj (o : OptionsR)
  | undef
  | parts (ps : List String)
deriving DecidableEq, Repr

/-- `Exec0.normalizeOneOptions` (exec0.ts:154-189): folds the positional
argument list into one options record.  Position 0: options object is
assigned, a string becomes `command`, anything else throws.  Position 1:
string becomes `cwd`, options object is assigned over the accumulator,
`undefined` sets `cwd` to undefined, anything else throws.  Position 2:
options object is assigned, `undefined` is skipped, anything else throws.
Arguments past position 2 are ignored. -/
def normalizeOneOptions (args : List Arg) : Except String OptionsR :=
  match args with
  | [] => .error "No command provided"
  | a0 :: rest0 =>
    match (match a0 with
      | .obj o => Except.ok o
      | .str s => Except.ok { command := some (.str s) }
      | _ => Except.error "Invalid first argument") with
    | .error e => .error e
    | .ok o0 =>
      match rest0 with
      | [] => .ok o0
      | a1 :: rest1 =>
        match (match a1 with
          | .str s => Except.ok { o0 with cwd := some s }
          | .obj o => Except.ok (assign o0 o)
          | .undef => Except.ok { o0 with cwd := none }
          | _ => Except.error "Invalid second argument") with
        | .error e => .error e
        | .ok o1 =>
          match rest1 with
          | [] => .ok o1
          | a2 :: _ =>
            match a2 with
            | .obj o => .ok (assign o1 o)
            | .undef => .ok o1
            | _ => .error "Invalid third argument"

/-- `throwNonZero: throwNonZero ?? false` in `Exec0.create` (exec0.ts:144). -/
def createThrowNonZero (input : Option Bool) : Bool := input.getD false

/-- `throwNonZero = this.throwNonZero` default in `one` (exec0.ts:276):
the per-call option falls back to the executor field set by `create`. -/
def effectiveThrowNonZero (factoryInput callOpt : Option Bool) : Bool :=
  callOpt.getD (createThrowNonZero factoryInput)

/-- Carriage-return normalisation of `makeLinePrefixer`
(exec0.ts:358): `s.replace(/\r(?!\n)/g, '\n')` — every CR not immediately
followed by LF becomes LF. -/
def crToNl : List Char → List Char
  | [] => []
  | '\r' :: '\n' :: rest => '\r' :: '\n' :: crToNl rest
  | '\r' :: rest => '\n' :: crToNl rest
  | c :: rest => c :: crToNl rest

/-- The `while ((idx = work.indexOf('\n')) !== -1)` loop of `push`
(exec0.ts:361-365): splits `work` into the list of completed lines (text
before each newline, in order) and the remainder after the last newline. -/
def splitLines : List Char → List (List Char) × List Char
  | [] => ([], [])
  | c :: rest =>
    if c = '\n' then
      let res := splitLines rest
      ([] :: res.1, res.2)
    else
      match splitLines rest with
      | (l0 :: ltl, rem) => ((c :: l0) :: ltl, rem)
      | ([], rem) => ([], c :: rem)

/-- The per-stream state of `makeLinePrefixer`: the carry-over buffer `buf`
(exec0.ts:354). -/
structure PrefixerState where
  buf : String
deriving DecidableEq, Repr

/-- `push` of `makeLinePrefixer` (exec0.ts:355-370), verbatim: the chunk is
appended to `buf`, but the displayed text `work` is computed from the chunk
`s` alone (`let work = s.replace(...)`), complete lines of `work` are each
written as `lbl + seg + '\n'`, and the remainder is written as one final
labelled line only when `final` is set.  Returns the new state and the list
of strings written to the destination stream, in order. -/
def push (lbl : String) (st : PrefixerState) (s : String) (final : Bool) :
    PrefixerState × List String :=
  let buf := st.buf ++ s
  let work := crToNl s.data
  let res := splitLines work
  let writes := res.1.map (fun seg => lbl ++ seg.asString ++ "\n")
  let writes := if final ∧ res.2.length ≠ 0
    then writes ++ [lbl ++ res.2.asString ++ "\n"] else writes
  (⟨buf⟩, writes)

/-- `end` of `makeLinePrefixer` (exec0.ts:371): `push('', true)`. -/
def pushEnd (lbl : String) (st : PrefixerState) : PrefixerState × List String :=
  push lbl st "" true

/-- Runs one stream's line prefixer over a chunk sequence: every data event
calls `push(s)` (exec0.ts:382,388) and the stream's end calls `end`
(exec0.ts:390-393).  Returns the concatenated list of terminal writes. -/
def runPrefixer (lbl : String) (chunks : List String) : List String :=
  let fin := chunks.foldl
    (fun (acc : Exec0.PrefixerState × List String) s =>
      let step := push lbl acc.1 s false
      (step.1, acc.2 ++ step.2))
    (⟨""⟩, [])
  fin.2 ++ (pushEnd lbl fin.1).2

/-- `Exec0.ExecResult` (exec0.ts:42-50). -/
structure ExecResult where
  cwd : String
  command : String
  code : Int
  stdout : String
  stderr : String
  output : String
  durationMs : Nat
deriving DecidableEq, Repr

/-- The `finalize` helper of `one` (exec0.ts:330-338). -/
def finalize (cwd cmdStr : String) (durationMs : Nat) (code : Int)
    (stdout stderr output : String) : ExecResult :=
  { cwd := cwd, command := cmdStr, code := code, stdout := stdout,
    stderr := stderr, output := output, durationMs := durationMs }

/-- Which child stream a data chunk arrived on. -/
inductive Stream0 where
  | stdout
  | stderr
deriving DecidableEq, Repr

/-- The chunks of one stream, in arrival order, of an interleaved event
sequence. -/
def chunksOf (st : Stream0) (events : List (Stream0 × String)) : List String :=
  events.filterMap (fun e => if e.1 = st then some e.2 else none)

/-- Concatenation of a list of strings, in order (specification
vocabulary for stating capture properties). -/
def strJoin : List String → String
  | [] => ""
  | s :: rest => s ++ strJoin rest

/-- The data handlers of `teeAndCapture` (exec0.ts:378-389): each chunk is
appended verbatim to its own stream's accumulator and to the combined
`output` accumulator, in arrival order. -/
def teeCapture (events : List (Stream0 × String)) : String × String × String :=
  events.foldl
    (fun (acc : String × String × String) ev =>
      match ev.1 with
      | .stdout => (acc.1 ++ ev.2, acc.2.1, acc.2.2 ++ ev.2)
      | .stderr => (acc.1, acc.2.1 ++ ev.2, acc.2.2 ++ ev.2))
    ("", "", "")

/-- The result record built by `teeAndCapture` (exec0.ts:396):
`finalize(code, out, err, output)`. -/
def teeResult (cwd cmd : String) (dur : Nat) (code : Int)
    (events : List (Stream0 × String)) : ExecResult :=
  let t := teeCapture events
  finalize cwd cmd dur code t.1 t.2.1 t.2.2

/-- JS `Array.prototype.join` with its default separator: the elements
interleaved with `","`. -/
def joinComma : List String → String
  | [] => ""
  | [s] => s
  | s :: rest => s ++ "," ++ joinComma rest

/-- JS `[a, b, ...].filter(Boolean).join()`: drops `undefined` and empty
strings, then joins with the DEFAULT separator `","`. -/
def filterBoolJoin (vals : List (Option String)) : String :=
  joinComma ((vals.filterMap id).filter (fun s => s ≠ ""))

/-- The Silent capture branch of `one` (exec0.ts:455-463, string commands;
identically 504-510 for argv commands): the result's `stdout`/`stderr` are
the strings returned by the spawn primitive and `output` is
`[r.stdout, r.stderr].filter(Boolean).join()`. -/
def silentResult (cwd cmd : String) (dur : Nat) (code : Int)
    (rStdout rStderr : String) : ExecResult :=
  finalize cwd cmd dur code rStdout rStderr
    (filterBoolJoin [some rStdout, some rStderr])

/-- The Inherit branch of `one` for string commands (exec0.ts:436-437):
`finalize(code, '', '', '')`. -/
def inheritStrResult (cwd cmd : String) (dur : Nat) (code : Int) : ExecResult :=
  finalize cwd cmd dur code "" "" ""

/-- The Inherit branch of `one` for argv commands (exec0.ts:477-487):
under `stdio: 'inherit'` the primitive pipes nothing, so `r.stdout` and
`r.stderr` are `undefined`; the code reads them as `r.stdout ?? ''` and
joins them with `filter(Boolean).join()`. -/
def inheritArrResult (cwd cmd : String) (dur : Nat) (code : Int)
    (rStdout rStderr : Option String) : ExecResult :=
  finalize cwd cmd dur code (rStdout.getD "") (rStderr.getD "")
    (filterBoolJoin [rStdout, rStderr])

/-- The RealShell branch of `one` (exec0.ts:420-421):
`finalize(code, '', '', '')`. -/
def realResult (cwd cmd : String) (dur : Nat) (code : Int) : ExecResult :=
  finalize cwd cmd dur code "" "" ""

/-- Whether one execution of `one` returns its result or raises.  In all
four interaction modes the code throws exactly when
`throwNonZero && r.exitCode !== 0` (exec0.ts:397, 427, 443, 469, 493, 516);
otherwise the result record is returned. -/
inductive OneOutcome where
  | ret
  | raisedCommandFailed (code : Int)
deriving DecidableEq, Repr

/-- The return-or-raise decision of `one` as a function of the effective
`throwNonZero` flag and the child's exit code. -/
def oneOutcome (throwNZ : Bool) (exitCode : Int) : OneOutcome :=
  if throwNZ ∧ exitCode ≠ 0 then .raisedCommandFailed exitCode else .ret

/-- `node:path.basename` (POSIX), the external path collaborator used to
derive default labels (exec0.ts:598,609,615): the last path segment,
ignoring trailing separators; `basename("/") = "/"`, `basename("") = ""`. -/
def basename (p : String) : String :=
  let rev := p.data.reverse.dropWhile (fun c => c = '/')
  if rev.isEmpty then
    if p.isEmpty then "" else "/"
  else
    ((rev.takeWhile (fun c => c ≠ '/')).reverse).asString

/-- `Exec0.CommandOrCommands`: one shell-string command, a list of
shell-string commands, or a list of argv commands.  `manyOptionsToOneOptions`
distinguishes only `typeof command === 'string'` from the array cases and
maps over the array elements otherwise (exec0.ts:608,613). -/
inductive CommandOrCommands where
  | str (s : String)
  | strs (cs : List String)
  | partsList (cs : List (List String))
deriving DecidableEq, Repr

/-- `Exec0.CwdOrCwds`: one path or a list of paths. -/
inductive CwdOrCwds where
  | one (c : String)
  | many (cs : List String)
deriving DecidableEq, Repr

/-- The `names` field of `Exec0.ManyOptions`: `string[] | boolean`. -/
inductive NamesR where
  | list (ns : List String)
  | bool (b : Bool)
deriving DecidableEq, Repr

/-- The fields of `Exec0.ManyOptions` relevant to the claims.  `rest` holds
the shared single-execution fields left after the destructuring
`const { command, cwd, names, options: optionsArray, ...rest } = manyOptions`
(exec0.ts:593); by that destructuring `rest` carries no `command`/`cwd`. -/
structure ManyOptionsR where
  command : Option CommandOrCommands := none
  cwd : Option CwdOrCwds := none
  parallel : Option Bool := none
  names : Option NamesR := none
  optionsArr : Option (List OptionsR) := none
  fixPrefixesLength : Option Bool := none
  rest : OptionsR := {}
deriving DecidableEq, Repr

/-- `Array.isArray(names) ? names[index] : names === true ? cwdDirname
: undefined` (exec0.ts:602,610). -/
def namesAt (names : Option NamesR) (index : Nat) (cwdDirname : String) :
    Option String :=
  match names with
  | some (.list ns) => ns[index]?
  | some (.bool true) => some cwdDirname
  | _ => none

/-- The inner `command.map((oneCommand, commandIndex) => ...)` of the
fan-out (exec0.ts:613-623): one record per command of the list, with
`optionIndex = cwdIndex * command.length + commandIndex` and, when
`names === true`, the label `basename(cwd)` followed by `.commandIndex`
whenever the command list is non-empty. -/
def fanCommands (m : ManyOptionsR) (cwdIndex : Nat) (cwd : String)
    (cmds : List CommandOrParts) : List OptionsR :=
  cmds.enum.map (fun p =>
    let commandIndex := p.1
    let oneCommand := p.2
    let optionIndex := cwdIndex * cmds.length + commandIndex
    let cwdDirname := basename cwd
    let sfx := if cmds.length ≠ 0 then "." ++ toString commandIndex else ""
    let pfx := match m.names with
      | some (.list ns) => ns[optionIndex]?
      | some (.bool true) => some (cwdDirname ++ sfx)
      | _ => none
    { m.rest with
        command := some oneCommand,
        cwd := some cwd,
        prefixLabel := pfx })

/-- `Exec0.manyOptionsToOneOptions` (exec0.ts:592-667).  With an explicit
`options` list, each record is overlaid on the shared `rest` fields and its
label is `options.prefix ?? rest.prefix ?? names-derived` (with
`options.cwd || process.cwd()` feeding the basename).  Otherwise the
command set is fanned out over the cwd list (cwd-major: the outer flatMap
runs over cwds), a single string command producing one record per cwd and
an array producing one record per (cwd, command) pair.  `pcwd` stands for
`process.cwd()`. -/
def manyOptionsToOneOptions (pcwd : String) (m : ManyOptionsR) :
    List OptionsR :=
  match m.optionsArr with
  | some optionsArray =>
    optionsArray.enum.map (fun p =>
      let index := p.1
      let o := p.2
      let cwd := match o.cwd with
        | some c => if c = "" then pcwd else c
        | none => pcwd
      let cwdDirname := basename cwd
      let pfx := match o.prefixLabel with
        | some s => some s
        | none => match m.rest.prefixLabel with
          | some s => some s
          | none => namesAt m.names index cwdDirname
      { assign m.rest o with prefixLabel := pfx })
  | none =>
    let cwds := match m.cwd with
      | none => [pcwd]
      | some (.one c) => [c]
      | some (.many cs) => cs
    cwds.enum.flatMap (fun q =>
      let cwdIndex := q.1
      let cwd := q.2
      match m.command with
      | some (.str s) =>
        let cwdDirname := basename cwd
        let pfx := namesAt m.names cwdIndex cwdDirname
        [{ m.rest with
            command := some (.str s),
            cwd := some cwd,
            prefixLabel := pfx }]
      | some (.strs cs) => fanCommands m cwdIndex cwd (cs.map .str)
      | some (.partsList ps) => fanCommands m cwdIndex cwd (ps.map .parts)
      | none => [])

/-- `fixPrefixesLength: fixPrefixesLength ?? true` in `Exec0.create`
(exec0.ts:142). -/
def createFixPrefixesLength (input : Option Bool) : Bool := input.getD true

/-- `fixPrefixesLength = this.fixPrefixesLength` default in `many`
(exec0.ts:779). -/
def effectiveFixPrefixesLength (factoryInput callOpt : Option Bool) : Bool :=
  callOpt.getD (createFixPrefixesLength factoryInput)

/-- `p?.length ?? 0` (exec0.ts:783). -/
def optLen : Option String → Nat
  | some s => s.length
  | none => 0

/-- `prefixes.reduce((max, prefix) => Math.max(max, prefix?.length ?? 0), 0)`
(exec0.ts:783). -/
def longestPrefixLen (prefixes : List (Option String)) : Nat :=
  prefixes.foldl (fun mx p => max mx (optLen p)) 0

/-- JS `s.padEnd(n, ' ')`: appends spaces up to length `n`; a string
already at least `n` long is unchanged.  (JS measures UTF-16 code units;
the labels involved are plain text, where this agrees with `String.length`.) -/
def padEnd (s : String) (n : Nat) : String :=
  s ++ String.mk (List.replicate (n - s.length) ' ')

/-- The prefix-alignment step of `many` (exec0.ts:781-787): ONLY when the
FIRST expanded record's prefix is a string (`typeof prefixes[0] ===
'string'`) and `fixPrefixesLength` is set, every present prefix is padded
to the longest prefix length; otherwise the records pass through
unchanged.  (`manyCommand` runs the identical step, exec0.ts:707-713.) -/
def fixPrefixes (fixLen : Bool) (opts : List OptionsR) : List OptionsR :=
  let prefixes := opts.map (fun o => o.prefixLabel)
  let firstIsString := match prefixes with
    | some _ :: _ => true
    | _ => false
  if firstIsString = true ∧ fixLen = true then
    let longest := longestPrefixLen prefixes
    opts.map (fun o =>
      { o with prefixLabel := o.prefixLabel.map (fun s => padEnd s longest) })
  else opts

/-- One invocation of a sequential batch, reduced to what decides control
flow and results: the effective `throwNonZero` of the expanded record and
the child's exit code. -/
structure Invocation where
  throwNZ : Bool
  exitCode : Int
deriving DecidableEq, Repr

/-- Whether `one` raises for this invocation (the `throwNonZero &&
exitCode !== 0` condition). -/
def oneFails (inv : Invocation) : Bool :=
  match oneOutcome inv.throwNZ inv.exitCode with
  | .ret => false
  | .raisedCommandFailed _ => true

/-- The sequential branch of `many` (exec0.ts:792-796): a plain `for` loop
awaiting `one` for each expanded record in declaration order and pushing
its result; a raise from `one` aborts the loop and propagates.  Results
are represented by the invocations' exit codes; the error carries the
failing exit code. -/
def manySeq : List Invocation → Except Int (List Int)
  | [] => .ok []
  | inv :: rest =>
    match oneOutcome inv.throwNZ inv.exitCode with
    | .raisedCommandFailed c => .error c
    | .ret =>
      match manySeq rest with
      | .error e => .error e
      | .ok rs => .ok (inv.exitCode :: rs)

/-- How many invocations the sequential loop attempts: one per iteration
reached; a raise stops the loop after the failing attempt. -/
def manySeqAttempts : List Invocation → Nat
  | [] => 0
  | inv :: rest =>
    match oneOutcome inv.throwNZ inv.exitCode with
    | .raisedCommandFailed _ => 1
    | .ret => 1 + manySeqAttempts rest

/-- The settling of one already-started invocation promise in a parallel
batch: the time at which it settles and whether it rejects. -/
structure Settled where
  time : Nat
  failed : Bool
deriving DecidableEq, Repr

/-- ECMAScript `Promise.all`, the combinator the parallel branch of `many`
awaits (`Promise.all(execOneOptions.map((options) => this.one(options)))`,
exec0.ts:790): over a list of already-running promises it rejects at the
time of the EARLIEST rejection (without waiting for the others), and
fulfils at the time of the latest fulfilment when no promise rejects.
Returns the settle time of the combined promise and whether it rejected. -/
def promiseAllResult (ps : List Settled) : Nat × Bool :=
  match ps.filter (fun p => p.failed) with
  | [] => (ps.foldl (fun t p => max t p.time) 0, false)
  | f :: fs => (fs.foldl (fun t p => min t p.time) f.time, true)

/-- One line written by `one` to its configured log sink: the command
banner (exec0.ts:317), the success glyph `✓` (exec0.ts:423,439,465,489,512)
or the failure glyph `✗` (exec0.ts:425,441,467,491,514 and the catch
handler at 523). -/
inductive LogEvent where
  | banner
  | okGlyph
  | failGlyph
deriving DecidableEq, Repr

/-- The sequence of lines `one` writes to the configured log sink, by mode.
When `silent` is set the sink is replaced by a no-op (`const log = silent ?
() => {} : (options.log ?? console.log)`, exec0.ts:284), so nothing reaches
the configured sink.  Otherwise the banner is always logged; in the
RealShell, Inherit and Silent-capture branches a `✓`/`✗` glyph is logged
according to the exit code BEFORE the `throwNonZero` check, and a raise is
then also caught by the catch handler (exec0.ts:521-524), which logs `✗`
again before re-raising; in the Tee branch `teeAndCapture`
(exec0.ts:340-401) logs no glyph itself, so a `✗` appears only via the
catch handler when the failure is thrown. -/
def oneLogEvents (mode : Interactive) (silent throwNZ : Bool)
    (exitCode : Int) : List LogEvent :=
  if silent then []
  else
    [LogEvent.banner] ++
    (match mode with
     | .real | .inherit | .silentCap =>
       (if exitCode = 0 then [LogEvent.okGlyph] else [LogEvent.failGlyph]) ++
       (if exitCode ≠ 0 ∧ throwNZ = true then [LogEvent.failGlyph] else [])
     | .tee =>
       if exitCode ≠ 0 ∧ throwNZ = true then [LogEvent.failGlyph] else [])

/-- A JS object literal over environment variables, as the ordered list of
its property assignments: a later assignment of a key overrides an earlier
one (spread semantics), and a key may be explicitly assigned `undefined`
(value `none`), which spread copies as a present-but-undefined property. -/
abbrev EnvObj := List (String × Option String)

/-- The value of property `k` after all assignments: `some v` when the last
assignment of `k` set `v` (`v = none` for an explicit `undefined`), `none`
when `k` was never assigned. -/
def lookupLast (o : EnvObj) (k : String) : Option (Option String) :=
  (o.reverse.find? (fun kv => kv.1 = k)).map (fun kv => kv.2)

/-- The variable `k` as seen by the spawned child: the spawn primitive
(execa/node child_process) drops env entries whose value is `undefined`,
so only a last assignment to a defined string survives. -/
def childEnvLookup (o : EnvObj) (k : String) : Option String :=
  match lookupLast o k with
  | some (some v) => some v
  | _ => none

/-- `colorsEnv` (exec0.ts:290-307): `colors === true` forces the ANSI color
variables on and assigns `NO_COLOR: undefined`; `colors === false` does the
opposite; anything else contributes nothing. -/
def colorsEnv : Option Bool → EnvObj
  | some true =>
    [("FORCE_COLOR", some "3"), ("CLICOLOR", some "1"),
     ("CLICOLOR_FORCE", some "1"), ("COLORTERM", some "truecolor"),
     ("NO_COLOR", none)]
  | some false =>
    [("FORCE_COLOR", none), ("CLICOLOR", none), ("CLICOLOR_FORCE", none),
     ("COLORTERM", none), ("NO_COLOR", some "1")]
  | none => []

/-- `colors: colors ?? true` in `Exec0.create` (exec0.ts:147). -/
def createColors (input : Option Bool) : Bool := input.getD true

/-- `colors = this.colors` default in `one` (exec0.ts:274): the per-call
flag falls back to the executor field set by `create`. -/
def effectiveColors (factoryInput callOpt : Option Bool) : Bool :=
  callOpt.getD (createColors factoryInput)

/-- `envForced = {...process.env, ...env, ...colorsEnv}` where
`env = {...this.env, ...options.env}` (exec0.ts:285-313): the inherited
process environment, then the executor's configured overlay, then the
per-call overlay, with the color-forcing assignments LAST. -/
def envForced (pEnv fEnv cEnv : EnvObj) (colors : Option Bool) : EnvObj :=
  pEnv ++ (fEnv ++ cEnv) ++ colorsEnv colors

end Exec0

/-- C1: with neither the factory input nor the per-call options setting the
non-zero-exit flag, a child exiting 1 makes `one` RETURN the result rather
than raise: `Exec0.create` defaults `throwNonZero` to `false`
(exec0.ts:144), contradicting the claim (and the field's own doc comment
"default false (reject on non-zero)", exec0.ts:26) that the default is to
raise `CommandFailed`. -/
theorem exec0_C1_default_does_not_raise :
    Exec0.effectiveThrowNonZero none none = false ∧
    Exec0.oneOutcome (Exec0.effectiveThrowNonZero none none) 1 = .ret ∧
    Exec0.oneOutcome true 1 = .raisedCommandFailed 1 := by
  decide

/-- C3: the carry-over buffer of `makeLinePrefixer` is dead: `push` appends
to `buf` but computes the displayed lines from the chunk alone
(exec0.ts:358), so the trailing partial line "ab" of the first chunk is
never completed by the next chunk, and `end` (`push('', true)`) flushes
nothing.  With chunks `["ab", "c\n"]` the only terminal write is `"Lc\n"`:
the characters `a` and `b` are silently dropped, contradicting the claim
(and the flush/carry-over machinery the code itself sets up). -/
theorem exec0_C3_partial_line_dropped :
    Exec0.runPrefixer "L" ["ab", "c\n"] = ["Lc\n"] ∧
    Exec0.runPrefixer "L" ["x\ryz", "w\n"] = ["Lx\n", "Lw\n"] := by
  decide

/-- C4: the later options object CLOBBERS the positional command:
`normalizeOneOptions(["echo a", {command: "echo b"}])` yields
`command = "echo b"`, not the positional `"echo a"` — `Object.assign`
overwrites already-set positional fields (exec0.ts:172), and likewise a
positional `cwd` is overwritten by a `cwd` field of a later options object. -/
theorem exec0_C4_counterexample :
    (Exec0.normalizeOneOptions
        [.str "echo a", .obj { command := some (.str "echo b") }]
      = .ok { command := some (.str "echo b") }) ∧
    (Exec0.normalizeOneOptions
        [.str "echo a", .str "/c1", .obj { cwd := some "/c2" }]
      = .ok { command := some (.str "echo a"), cwd := some "/c2" }) ∧
    some (Exec0.CommandOrParts.str "echo b") ≠ some (.str "echo a") := by
  refine ⟨rfl, rfl, by decide⟩

/-- C4 amended: in the shapes `(command, options)` and
`(command, cwd, options)`, a later options object merges with LAST-WINS
precedence: when it carries a `command` (resp. `cwd`) field, that value
replaces the positional one; the positional value survives only when the
later object omits the field. -/
theorem exec0_C4_last_merge_wins (c cw : String) (o : Exec0.OptionsR) :
    (∃ r, Exec0.normalizeOneOptions [.str c, .obj o] = .ok r ∧
      r.command = (match o.command with
        | some x => some x
        | none => some (.str c))) ∧
    (∃ r, Exec0.normalizeOneOptions [.str c, .str cw, .obj o] = .ok r ∧
      r.command = (match o.command with
        | some x => some x
        | none => some (.str c)) ∧
      r.cwd = (match o.cwd with
        | some x => some x
        | none => some cw)) := by
  constructor
  · exact ⟨_, rfl, rfl⟩
  · exact ⟨_, rfl, rfl, rfl⟩

/-- The tee capture accumulator, for an arbitrary starting accumulator:
each component is the start value followed by the in-order concatenation of
the relevant chunks. -/
lemma Exec0.teeCapture_go (events : List (Exec0.Stream0 × String)) :
    ∀ a b c : String,
      events.foldl
        (fun (acc : String × String × String) ev =>
          match ev.1 with
          | .stdout => (acc.1 ++ ev.2, acc.2.1, acc.2.2 ++ ev.2)
          | .stderr => (acc.1, acc.2.1 ++ ev.2, acc.2.2 ++ ev.2))
        (a, b, c)
      = (a ++ Exec0.strJoin (Exec0.chunksOf .stdout events),
         b ++ Exec0.strJoin (Exec0.chunksOf .stderr events),
         c ++ Exec0.strJoin (events.map (fun e => e.2))) := by
  induction events with
  | nil => intro a b c; simp [Exec0.chunksOf, Exec0.strJoin]
  | cons e rest ih =>
    intro a b c
    obtain ⟨st, s⟩ := e
    cases st <;>
      simp [Exec0.chunksOf, Exec0.strJoin, List.filterMap_cons, ih,
        String.append_assoc]

/-- C2: in Silent mode `result.output` is NOT the arrival-order
concatenation of the chunks: with stdout `"a"` arriving before stderr
`"b"`, the claim demands `output = "ab"`, but the silent branch computes
`[r.stdout, r.stderr].filter(Boolean).join()`, whose default separator is
a comma, giving `"a,b"`. -/
theorem exec0_C2_counterexample :
    (Exec0.silentResult "/w" "c" 0 0 "a" "b").output = "a,b" ∧
    Exec0.strJoin ([(Exec0.Stream0.stdout, "a"),
      (Exec0.Stream0.stderr, "b")].map (fun e => e.2)) = "ab" ∧
    ("a,b" : String) ≠ "ab" := by
  refine ⟨rfl, rfl, by decide⟩

/-- C2 amended: in Tee mode, `output` is exactly the arrival-order
concatenation of every chunk and `stdout`/`stderr` each the concatenation
of their own stream's chunks; in Silent mode `output` is the non-empty
strings among `[stdout, stderr]` joined with a comma (stdout first,
regardless of arrival order), so equal to `stdout ++ "," ++ stderr` when
both are non-empty and to the single non-empty one otherwise; in Inherit
and RealShell modes `stdout`, `stderr` and `output` are all empty. -/
theorem exec0_C2_amended (events : List (Exec0.Stream0 × String))
    (cwd cmd : String) (dur : Nat) (code : Int) (rOut rErr : String) :
    ((Exec0.teeResult cwd cmd dur code events).output
        = Exec0.strJoin (events.map (fun e => e.2)) ∧
      (Exec0.teeResult cwd cmd dur code events).stdout
        = Exec0.strJoin (Exec0.chunksOf .stdout events) ∧
      (Exec0.teeResult cwd cmd dur code events).stderr
        = Exec0.strJoin (Exec0.chunksOf .stderr events)) ∧
    (rOut ≠ "" → rErr ≠ "" →
      (Exec0.silentResult cwd cmd dur code rOut rErr).output
        = rOut ++ "," ++ rErr) ∧
    ((Exec0.silentResult cwd cmd dur code rOut "").output = rOut ∧
      (Exec0.silentResult cwd cmd dur code "" rErr).output = rErr) ∧
    ((Exec0.inheritStrResult cwd cmd dur code).stdout = "" ∧
      (Exec0.inheritStrResult cwd cmd dur code).stderr = "" ∧
      (Exec0.inheritStrResult cwd cmd dur code).output = "" ∧
      (Exec0.inheritArrResult cwd cmd dur code none none).stdout = "" ∧
      (Exec0.inheritArrResult cwd cmd dur code none none).stderr = "" ∧
      (Exec0.inheritArrResult cwd cmd dur code none none).output = "" ∧
      (Exec0.realResult cwd cmd dur code).stdout = "" ∧
      (Exec0.realResult cwd cmd dur code).stderr = "" ∧
      (Exec0.realResult cwd cmd dur code).output = "") := by
  refine ⟨⟨?_, ?_, ?_⟩, ?_, ⟨?_, ?_⟩, ?_⟩
  · simp [Exec0.teeResult, Exec0.teeCapture, Exec0.finalize,
      Exec0.teeCapture_go]
  · simp [Exec0.teeResult, Exec0.teeCapture, Exec0.finalize,
      Exec0.teeCapture_go]
  · simp [Exec0.teeResult, Exec0.teeCapture, Exec0.finalize,
      Exec0.teeCapture_go]
  · intro ho he
    simp [Exec0.silentResult, Exec0.finalize, Exec0.filterBoolJoin, ho, he,
      Exec0.joinComma, String.append_assoc]
  · by_cases h : rOut = "" <;>
      simp [Exec0.silentResult, Exec0.finalize, Exec0.filterBoolJoin,
        Exec0.joinComma, h]
  · by_cases h : rErr = "" <;>
      simp [Exec0.silentResult, Exec0.finalize, Exec0.filterBoolJoin,
        Exec0.joinComma, h]
  · simp [Exec0.inheritStrResult, Exec0.inheritArrResult, Exec0.realResult,
      Exec0.finalize, Exec0.filterBoolJoin, Exec0.joinComma]

/-- C2 amended, witnessed at a concrete input: a tee execution with chunks
stdout `"a"`, stderr `"b"`, stdout `"c!"` captures `output = "abc!"`, and a
silent execution with both captures non-empty joins them with a comma. -/
theorem exec0_C2_amended_witness :
    (Exec0.teeResult "/w" "c" 0 0
        [(Exec0.Stream0.stdout, "a"), (Exec0.Stream0.stderr, "b"),
          (Exec0.Stream0.stdout, "c!")]).output = "abc!" ∧
    (Exec0.silentResult "/w" "c" 0 0 "x" "y").output = "x,y" := by
  have h := exec0_C2_amended
    [(Exec0.Stream0.stdout, "a"), (Exec0.Stream0.stderr, "b"),
      (Exec0.Stream0.stdout, "c!")] "/w" "c" 0 0 "x" "y"
  refine ⟨?_, ?_⟩
  · rw [h.1.1]; decide
  · rw [h.2.1 (by decide) (by decide)]; decide

/-- Indexing a flatMap whose pieces all have the same length `n`:
element `i * n + j` (with `j < n`) of `l.flatMap f` is element `j` of
`f l[i]`. -/
lemma Exec0.getElem?_flatMap_const {α β : Type} (f : α → List β) (n : Nat)
    (hn : ∀ a, (f a).length = n) :
    ∀ (l : List α) (i j : Nat), j < n →
      (l.flatMap f)[i * n + j]? = l[i]?.bind (fun a => (f a)[j]?) := by
  intro l
  induction l with
  | nil => intro i j hj; simp
  | cons a t ih =>
    intro i j hj
    cases i with
    | zero =>
      simp only [List.flatMap_cons, Nat.zero_mul, Nat.zero_add,
        List.getElem?_append, hn a, hj, if_pos]
      simp
    | succ k =>
      have hge : ¬ ((k + 1) * n + j < (f a).length) := by
        rw [hn a]; push_neg
        calc n ≤ (k + 1) * n := Nat.le_mul_of_pos_left n (Nat.succ_pos k)
        _ ≤ (k + 1) * n + j := Nat.le_add_right _ _
      rw [List.flatMap_cons, List.getElem?_append, if_neg hge, hn a]
      have harith : (k + 1) * n + j - n = k * n + j := by
        rw [Nat.succ_mul]; omega
      rw [harith, ih k j hj]
      simp

/-- A flatMap producing singleton lists is a map. -/
lemma Exec0.flatMap_singleton_eq_map {α β : Type} (l : List α) (r : α → β) :
    l.flatMap (fun q => [r q]) = l.map r := by
  induction l with
  | nil => rfl
  | cons a t ih => simp [List.flatMap_cons, ih]

/-- Length of a flatMap whose pieces all have the same length `n`. -/
lemma Exec0.length_flatMap_const {α β : Type} (f : α → List β) (n : Nat)
    (hn : ∀ a, (f a).length = n) :
    ∀ l : List α, (l.flatMap f).length = l.length * n := by
  intro l
  induction l with
  | nil => simp
  | cons a t ih => simp [List.flatMap_cons, ih, hn a, Nat.succ_mul, Nat.add_comm]

/-- C5: with the command set given as a LIST containing exactly one
command and `names: true`, the derived prefix is `basename(cwd).0`, not
`basename(cwd)` alone: the `.commandIndex` suffix is attached whenever the
command list is non-empty (`command.length ? '.' + commandIndex : ''`,
exec0.ts:616), so "exactly one command for that cwd" still gets the
suffix.  Only a command given as a single string avoids it. -/
theorem exec0_C5_counterexample :
    (Exec0.manyOptionsToOneOptions "/p"
        { command := some (.strs ["c"]), cwd := some (.many ["/x/y"]),
          names := some (.bool true) }).map (fun o => o.prefixLabel)
      = [some "y.0"] ∧
    (some ("y.0" : String)) ≠ some "y" := by
  refine ⟨rfl, by decide⟩

/-- C5 amended: for a batch of N listed commands × M cwds, expansion
yields exactly N×M records in cwd-major order (record `i * N + j` carries
cwd `cwds[i]` and command `cs[j]`); with `names === true` its prefix is
`basename(cwds[i]) ++ "." ++ j` — the `.commandIndex` suffix applies to
every non-empty command LIST, including a list of exactly one — while a
command given as one string yields one record per cwd with prefix
`basename(cwd)` alone; with an explicit `names` list, record `k` gets
`names[k]`. -/
theorem exec0_C5_amended (pcwd : String) (cs cwds ns : List String)
    (s : String) (i j : Nat) (hi : i < cwds.length) (hj : j < cs.length) :
    (Exec0.manyOptionsToOneOptions pcwd
        { command := some (.strs cs), cwd := some (.many cwds),
          names := some (.bool true) }).length
      = cwds.length * cs.length ∧
    (Exec0.manyOptionsToOneOptions pcwd
        { command := some (.strs cs), cwd := some (.many cwds),
          names := some (.bool true) })[i * cs.length + j]?
      = some {
          command := some (.str cs[j]),
          cwd := some cwds[i],
          prefixLabel := some (Exec0.basename cwds[i] ++ "." ++ toString j) } ∧
    (Exec0.manyOptionsToOneOptions pcwd
        { command := some (.strs cs), cwd := some (.many cwds),
          names := some (.list ns) })[i * cs.length + j]?
      = some {
          command := some (.str cs[j]),
          cwd := some cwds[i],
          prefixLabel := ns[i * cs.length + j]? } ∧
    (Exec0.manyOptionsToOneOptions pcwd
        { command := some (.str s), cwd := some (.many cwds),
          names := some (.bool true) }).length = cwds.length ∧
    (Exec0.manyOptionsToOneOptions pcwd
        { command := some (.str s), cwd := some (.many cwds),
          names := some (.bool true) })[i]?
      = some {
          command := some (.str s),
          cwd := some cwds[i],
          prefixLabel := some (Exec0.basename cwds[i]) } := by
  have hne : cs.length ≠ 0 := by omega
  have hlen : ∀ q : Nat × String,
      (Exec0.fanCommands
        { command := some (.strs cs), cwd := some (.many cwds),
          names := some (.bool true) } q.1 q.2 (cs.map .str)).length
      = cs.length := by
    intro q; simp [Exec0.fanCommands]
  have hlenN : ∀ q : Nat × String,
      (Exec0.fanCommands
        { command := some (.strs cs), cwd := some (.many cwds),
          names := some (.list ns) } q.1 q.2 (cs.map .str)).length
      = cs.length := by
    intro q; simp [Exec0.fanCommands]
  refine ⟨?_, ?_, ?_, ?_, ?_⟩
  · simp only [Exec0.manyOptionsToOneOptions]
    rw [Exec0.length_flatMap_const _ cs.length hlen]
    simp [Nat.mul_comm]
  · simp only [Exec0.manyOptionsToOneOptions]
    rw [Exec0.getElem?_flatMap_const _ cs.length hlen cwds.enum i j hj]
    simp [List.getElem?_enum, List.getElem?_eq_getElem hi, Exec0.fanCommands,
      List.getElem?_map, List.getElem?_eq_getElem hj, hne, String.append_assoc]
  · simp only [Exec0.manyOptionsToOneOptions]
    rw [Exec0.getElem?_flatMap_const _ cs.length hlenN cwds.enum i j hj]
    simp [List.getElem?_enum, List.getElem?_eq_getElem hi, Exec0.fanCommands,
      List.getElem?_map, List.getElem?_eq_getElem hj, hne]
  · simp only [Exec0.manyOptionsToOneOptions]
    rw [Exec0.flatMap_singleton_eq_map]
    simp
  · simp only [Exec0.manyOptionsToOneOptions]
    rw [Exec0.flatMap_singleton_eq_map]
    simp [List.getElem?_map, List.getElem?_enum, List.getElem?_eq_getElem hi,
      Exec0.namesAt]


/-- C5 amended, witnessed: 2 listed commands × 2 cwds with `names: true`
give 4 records in cwd-major order, the record at index `1*2+1` carrying
the second cwd, the second command, and the prefix `v.1`. -/
theorem exec0_C5_amended_witness :
    (Exec0.manyOptionsToOneOptions "/p"
        { command := some (.strs ["a", "b"]),
          cwd := some (.many ["/r/u", "/r/v"]),
          names := some (.bool true) }).length = 4 ∧
    (Exec0.manyOptionsToOneOptions "/p"
        { command := some (.strs ["a", "b"]),
          cwd := some (.many ["/r/u", "/r/v"]),
          names := some (.bool true) })[3]?
      = some {
          command := some (.str "b"),
          cwd := some "/r/v",
          prefixLabel := some "v.1" } := by
  have h := exec0_C5_amended "/p" ["a", "b"] ["/r/u", "/r/v"] [] "w" 1 1
    (by decide) (by decide)
  refine ⟨?_, ?_⟩
  · rw [h.1]; rfl
  · have h2 := h.2.1
    simpa using h2

/-- C6: the padding guard is `typeof prefixes[0] === 'string'`
(exec0.ts:782), NOT "at least one derived prefix is a non-empty string":
with an explicit options list deriving prefixes
`[undefined, "abc", "abcdefg"]`, at least one is non-empty, yet no padding
happens at all and `"abc"` remains of length 3 while the longest is 7
(`fixPrefixesLength` defaulting to true via `create`). -/
theorem exec0_C6_counterexample :
    Exec0.effectiveFixPrefixesLength none none = true ∧
    (Exec0.fixPrefixes true (Exec0.manyOptionsToOneOptions "/p"
        { optionsArr := some [
            { command := some (.str "a") },
            { command := some (.str "b"), prefixLabel := some "abc" },
            { command := some (.str "c"), prefixLabel := some "abcdefg" }] })
      ).map (fun o => o.prefixLabel)
      = [none, some "abc", some "abcdefg"] ∧
    ("abc" : String).length = 3 ∧ ("abcdefg" : String).length = 7 ∧
    (3 : Nat) ≠ 7 := by
  refine ⟨rfl, rfl, rfl, rfl, by decide⟩

/-- `padEnd` always yields the maximum of the requested width and the
string's own length. -/
lemma Exec0.padEnd_length (s : String) (n : Nat) :
    (Exec0.padEnd s n).length = max s.length n := by
  rw [Exec0.padEnd, String.length_append]
  have h : (String.mk (List.replicate (n - s.length) ' ')).length
      = n - s.length := by
    show (List.replicate (n - s.length) ' ').length = n - s.length
    simp
  rw [h]
  omega

/-- The fold computing the longest prefix never drops below its
accumulator. -/
lemma Exec0.longest_fold_init_le :
    ∀ (l : List (Option String)) (a : Nat),
      a ≤ l.foldl (fun mx p => max mx (Exec0.optLen p)) a := by
  intro l
  induction l with
  | nil => intro a; simp
  | cons p t ih =>
    intro a
    exact le_trans (Nat.le_max_left a (Exec0.optLen p)) (ih _)

/-- Every element's length is bounded by the longest-prefix fold. -/
lemma Exec0.longest_fold_mem_le :
    ∀ (l : List (Option String)) (a : Nat) (p : Option String), p ∈ l →
      Exec0.optLen p ≤ l.foldl (fun mx q => max mx (Exec0.optLen q)) a := by
  intro l
  induction l with
  | nil => intro a p hp; cases hp
  | cons q t ih =>
    intro a p hp
    rcases List.mem_cons.mp hp with h | h
    · subst h
      exact le_trans (Nat.le_max_right a (Exec0.optLen p))
        (Exec0.longest_fold_init_le t _)
    · exact ih _ p h

/-- C6 amended: the alignment step fires exactly when `fixPrefixesLength`
is enabled (it defaults to true) AND the FIRST expanded record's prefix is
a string; it then pads every present prefix with spaces to the length of
the longest prefix (absent prefixes stay absent); when the first record's
prefix is absent — even if a later one is a non-empty string — or the flag
is disabled, all records pass through unchanged. -/
theorem exec0_C6_amended (fixLen : Bool) (opts : List Exec0.OptionsR) :
    (∀ s0 tl, opts.map (fun o => o.prefixLabel) = some s0 :: tl →
      fixLen = true →
      ∀ o ∈ Exec0.fixPrefixes fixLen opts, ∀ s, o.prefixLabel = some s →
        s.length
          = Exec0.longestPrefixLen (opts.map (fun o => o.prefixLabel))) ∧
    (fixLen = false → Exec0.fixPrefixes fixLen opts = opts) ∧
    ((opts.map (fun o => o.prefixLabel)).head? = some none →
      Exec0.fixPrefixes fixLen opts = opts) ∧
    Exec0.effectiveFixPrefixesLength none none = true := by
  refine ⟨?_, ?_, ?_, rfl⟩
  · intro s0 tl hfirst hfix o ho s hs
    subst hfix
    have hcond : (match opts.map (fun o => o.prefixLabel) with
        | some _ :: _ => true
        | _ => false) = true := by rw [hfirst]
    simp only [Exec0.fixPrefixes, hcond, and_self, if_true, if_pos] at ho
    rcases List.mem_map.mp ho with ⟨o0, ho0, rfl⟩
    rw [Option.map_eq_some'] at hs
    obtain ⟨t, hto, rfl⟩ := hs
    rw [Exec0.padEnd_length]
    have hmem : some t ∈ opts.map (fun o => o.prefixLabel) :=
      List.mem_map.mpr ⟨o0, ho0, hto⟩
    have hle := Exec0.longest_fold_mem_le
      (opts.map (fun o => o.prefixLabel)) 0 (some t) hmem
    simp only [Exec0.optLen] at hle
    simp only [Exec0.longestPrefixLen, Exec0.optLen]
    omega
  · intro hfix
    simp [Exec0.fixPrefixes, hfix]
  · intro hfirst
    rw [Exec0.fixPrefixes]
    rcases hmap : opts.map (fun o => o.prefixLabel) with _ | ⟨p0, tl⟩
    · simp [hmap]
    · rw [hmap] at hfirst
      simp at hfirst
      subst hfirst
      simp [hmap]

/-- C6 amended, witnessed: prefixes of lengths 3 and 7 with the first
present are both padded to length 7. -/
theorem exec0_C6_amended_witness :
    ("abc    " : String).length
      = Exec0.longestPrefixLen
          (([({ prefixLabel := some "abc" } : Exec0.OptionsR),
             { prefixLabel := some "abcdefg" }]).map
            (fun o => o.prefixLabel)) := by
  exact (exec0_C6_amended true
      [{ prefixLabel := some "abc" }, { prefixLabel := some "abcdefg" }]).1
    "abc" [some "abcdefg"] rfl rfl
    { prefixLabel := some "abc    " } (by decide) "abc    " rfl

/-- A failing invocation's outcome is a raise carrying its exit code. -/
lemma Exec0.oneOutcome_of_fails (inv : Exec0.Invocation)
    (h : Exec0.oneFails inv = true) :
    Exec0.oneOutcome inv.throwNZ inv.exitCode
      = .raisedCommandFailed inv.exitCode := by
  by_cases hc : inv.throwNZ = true ∧ inv.exitCode ≠ 0
  · simp [Exec0.oneOutcome, hc]
  · simp [Exec0.oneFails, Exec0.oneOutcome, hc] at h

/-- A non-failing invocation's outcome is a plain return. -/
lemma Exec0.oneOutcome_of_not_fails (inv : Exec0.Invocation)
    (h : Exec0.oneFails inv = false) :
    Exec0.oneOutcome inv.throwNZ inv.exitCode = .ret := by
  by_cases hc : inv.throwNZ = true ∧ inv.exitCode ≠ 0
  · simp [Exec0.oneFails, Exec0.oneOutcome, hc] at h
  · simp [Exec0.oneOutcome, hc]

/-- Attempt count of the sequential loop across a returning head. -/
lemma Exec0.manySeqAttempts_cons_ret (j : Exec0.Invocation)
    (rest : List Exec0.Invocation)
    (h : Exec0.oneOutcome j.throwNZ j.exitCode = .ret) :
    Exec0.manySeqAttempts (j :: rest) = 1 + Exec0.manySeqAttempts rest := by
  simp [Exec0.manySeqAttempts, h]

/-- C7: the sequential branch of `many` runs the expanded invocations one
at a time in declaration order; when invocation k raises (its effective
`throwOnNonZero` true and exit code non-zero), exactly the first k+1
invocations are attempted — none after k — and the failure propagates out
of `many`; when invocation k's policy suppresses throwing, the loop
continues into the remaining invocations regardless of k's exit code, and
an all-successful batch yields the results in declaration order. -/
theorem exec0_C7_sequential_fail_fast (pre post : List Exec0.Invocation)
    (inv : Exec0.Invocation)
    (hpre : ∀ j ∈ pre, Exec0.oneFails j = false) :
    (Exec0.oneFails inv = true →
      Exec0.manySeqAttempts (pre ++ inv :: post) = pre.length + 1 ∧
      Exec0.manySeq (pre ++ inv :: post) = .error inv.exitCode) ∧
    (Exec0.oneFails inv = false →
      Exec0.manySeqAttempts (pre ++ inv :: post)
        = pre.length + 1 + Exec0.manySeqAttempts post ∧
      ∀ rs, Exec0.manySeq post = .ok rs →
        Exec0.manySeq (pre ++ inv :: post)
          = .ok (pre.map (fun p => p.exitCode)
              ++ inv.exitCode :: rs)) := by
  induction pre with
  | nil =>
    refine ⟨fun hf => ?_, fun hnf => ?_⟩
    · have h := Exec0.oneOutcome_of_fails inv hf
      constructor
      · simp [Exec0.manySeqAttempts, h]
      · simp [Exec0.manySeq, h]
    · have h := Exec0.oneOutcome_of_not_fails inv hnf
      constructor
      · simp [Exec0.manySeqAttempts, h, Nat.add_comm]
      · intro rs hrs
        simp [Exec0.manySeq, h, hrs]
  | cons j t ih =>
    have hj : Exec0.oneFails j = false := hpre j (List.mem_cons_self j t)
    have ht : ∀ x ∈ t, Exec0.oneFails x = false :=
      fun x hx => hpre x (List.mem_cons_of_mem j hx)
    have hjo := Exec0.oneOutcome_of_not_fails j hj
    have iht := ih ht
    refine ⟨fun hf => ?_, fun hnf => ?_⟩
    · obtain ⟨ha, he⟩ := iht.1 hf
      constructor
      · rw [List.cons_append, Exec0.manySeqAttempts_cons_ret j _ hjo, ha,
          List.length_cons]
        omega
      · simp [Exec0.manySeq, hjo, he]
    · obtain ⟨ha, he⟩ := iht.2 hnf
      constructor
      · rw [List.cons_append, Exec0.manySeqAttempts_cons_ret j _ hjo, ha,
          List.length_cons]
        omega
      · intro rs hrs
        simp [Exec0.manySeq, hjo, he rs hrs]

/-- C7 witnessed: in the 3-invocation sequential batch where invocation 2
(index 1) fails with `throwOnNonZero` true, exactly 2 invocations are
attempted — invocation 3 never runs — and the failure propagates; with
invocation 2's policy suppressing the throw, all 3 run and the batch
returns all results in order. -/
theorem exec0_C7_sequential_fail_fast_witness :
    (Exec0.manySeqAttempts [⟨true, 0⟩, ⟨true, 1⟩, ⟨true, 0⟩] = 2 ∧
      Exec0.manySeq [⟨true, 0⟩, ⟨true, 1⟩, ⟨true, 0⟩] = .error 1) ∧
    (Exec0.manySeqAttempts [⟨true, 0⟩, ⟨false, 1⟩, ⟨true, 0⟩] = 3 ∧
      Exec0.manySeq [⟨true, 0⟩, ⟨false, 1⟩, ⟨true, 0⟩]
        = .ok [0, 1, 0]) := by
  constructor
  · exact (exec0_C7_sequential_fail_fast [⟨true, 0⟩] [⟨true, 0⟩] ⟨true, 1⟩
      (by decide)).1 (by decide)
  · have h := (exec0_C7_sequential_fail_fast [⟨true, 0⟩] [⟨true, 0⟩]
      ⟨false, 1⟩ (by decide)).2 (by decide)
    exact ⟨h.1, h.2 [0] rfl⟩

/-- The min-fold over settle times never exceeds its accumulator. -/
lemma Exec0.foldl_min_le_init :
    ∀ (l : List Exec0.Settled) (a : Nat),
      l.foldl (fun t p => min t p.time) a ≤ a := by
  intro l
  induction l with
  | nil => intro a; simp
  | cons p t ih =>
    intro a
    exact le_trans (ih _) (Nat.min_le_left a p.time)

/-- The min-fold over settle times is bounded by every member's time. -/
lemma Exec0.foldl_min_le_mem :
    ∀ (l : List Exec0.Settled) (a : Nat) (p : Exec0.Settled), p ∈ l →
      l.foldl (fun t q => min t q.time) a ≤ p.time := by
  intro l
  induction l with
  | nil => intro a p hp; cases hp
  | cons q t ih =>
    intro a p hp
    rcases List.mem_cons.mp hp with h | h
    · subst h
      exact le_trans (Exec0.foldl_min_le_init t _) (Nat.min_le_right a p.time)
    · exact ih _ p h

/-- The min-fold over settle times is attained by the accumulator or by a
member. -/
lemma Exec0.foldl_min_attained :
    ∀ (l : List Exec0.Settled) (a : Nat),
      l.foldl (fun t p => min t p.time) a = a ∨
      ∃ p ∈ l, l.foldl (fun t q => min t q.time) a = p.time := by
  intro l
  induction l with
  | nil => intro a; exact Or.inl rfl
  | cons q t ih =>
    intro a
    rcases ih (min a q.time) with h | ⟨p, hp, hpt⟩
    · rcases Nat.le_total a q.time with hle | hle
      · exact Or.inl (by rw [List.foldl_cons, h, Nat.min_eq_left hle])
      · exact Or.inr ⟨q, List.mem_cons_self q t,
          by rw [List.foldl_cons, h, Nat.min_eq_right hle]⟩
    · exact Or.inr ⟨p, List.mem_cons_of_mem q hp, hpt⟩

/-- The max-fold over settle times never drops below its accumulator. -/
lemma Exec0.foldl_max_ge_init :
    ∀ (l : List Exec0.Settled) (a : Nat),
      a ≤ l.foldl (fun t q => max t q.time) a := by
  intro l
  induction l with
  | nil => intro a; simp
  | cons r u ihu =>
    intro a
    exact le_trans (Nat.le_max_left a r.time) (ihu _)

/-- The max-fold over settle times dominates every member's time. -/
lemma Exec0.foldl_max_ge_mem :
    ∀ (l : List Exec0.Settled) (a : Nat) (p : Exec0.Settled), p ∈ l →
      p.time ≤ l.foldl (fun t q => max t q.time) a := by
  intro l
  induction l with
  | nil => intro a p hp; cases hp
  | cons q t ih =>
    intro a p hp
    rcases List.mem_cons.mp hp with h | h
    · subst h
      exact le_trans (Nat.le_max_right a p.time)
        (Exec0.foldl_max_ge_init t _)
    · exact ih _ p h

/-- C8: `many` with `parallel: true` awaits `Promise.all`, which settles
as soon as the FIRST rejection settles: in a batch of three invocations
settling at times 3, 1 (rejecting) and 3, the combined promise rejects at
time 1, strictly before the sibling invocations have settled at time 3 —
so `many` does NOT wait for every invocation to settle before raising. -/
theorem exec0_C8_counterexample :
    Exec0.promiseAllResult
        [⟨3, false⟩, ⟨1, true⟩, ⟨3, false⟩] = (1, true) ∧
    ([⟨3, false⟩, ⟨1, true⟩, ⟨3, false⟩] : List Exec0.Settled).foldl
        (fun t p => max t p.time) 0 = 3 ∧
    (1 : Nat) < 3 := by
  refine ⟨rfl, rfl, by decide⟩

/-- C8 amended: when no invocation of a parallel batch fails, `many`
fulfils only once every invocation has settled (its settle time dominates
each invocation's); when some invocation fails, `many` rejects with the
earliest failure, at that failing invocation's own settle time — at or
before every failing sibling's time, possibly before non-failing siblings
have settled; the siblings are not cancelled (their own settling is
unaffected by the combined promise). -/
theorem exec0_C8_amended (ps : List Exec0.Settled) :
    ((∀ p ∈ ps, p.failed = false) →
      (Exec0.promiseAllResult ps).2 = false ∧
      ∀ p ∈ ps, p.time ≤ (Exec0.promiseAllResult ps).1) ∧
    (∀ q ∈ ps, q.failed = true →
      (Exec0.promiseAllResult ps).2 = true ∧
      (Exec0.promiseAllResult ps).1 ≤ q.time ∧
      ∃ p ∈ ps, p.failed = true ∧
        (Exec0.promiseAllResult ps).1 = p.time) := by
  constructor
  · intro hall
    have hfil : ps.filter (fun p => p.failed) = [] := by
      rw [List.filter_eq_nil_iff]
      intro p hp
      simp [hall p hp]
    rw [Exec0.promiseAllResult, hfil]
    exact ⟨rfl, fun p hp => Exec0.foldl_max_ge_mem ps 0 p hp⟩
  · intro q hq hqf
    have hqfil : q ∈ ps.filter (fun p => p.failed) :=
      List.mem_filter.mpr ⟨hq, by simp [hqf]⟩
    rcases hfil : ps.filter (fun p => p.failed) with _ | ⟨f, fs⟩
    · rw [hfil] at hqfil; cases hqfil
    · rw [Exec0.promiseAllResult, hfil]
      refine ⟨rfl, ?_, ?_⟩
      · rw [hfil] at hqfil
        rcases List.mem_cons.mp hqfil with h | h
        · subst h
          exact Exec0.foldl_min_le_init fs q.time
        · exact Exec0.foldl_min_le_mem fs f.time q h
      · rcases Exec0.foldl_min_attained fs f.time with h | ⟨p, hp, hpt⟩
        · refine ⟨f, ?_, ?_, h⟩
          · exact (List.mem_filter.mp (hfil ▸ List.mem_cons_self f fs)).1
          · simpa using (List.mem_filter.mp
              (hfil ▸ List.mem_cons_self f fs)).2
        · refine ⟨p, ?_, ?_, hpt⟩
          · exact (List.mem_filter.mp
              (hfil ▸ List.mem_cons_of_mem f hp)).1
          · simpa using (List.mem_filter.mp
              (hfil ▸ List.mem_cons_of_mem f hp)).2

/-- C8 amended, witnessed: the batch settling at times 3, 1 (rejecting),
3 rejects at time 1; the all-success batch at times 3, 1, 3 fulfils at
time 3 ≥ each. -/
theorem exec0_C8_amended_witness :
    (Exec0.promiseAllResult [⟨3, false⟩, ⟨1, true⟩, ⟨3, false⟩]).2 = true ∧
    (Exec0.promiseAllResult [⟨3, false⟩, ⟨1, true⟩, ⟨3, false⟩]).1 ≤ 1 ∧
    (Exec0.promiseAllResult [⟨3, false⟩, ⟨1, false⟩, ⟨3, false⟩]).2
      = false := by
  have h := (exec0_C8_amended [⟨3, false⟩, ⟨1, true⟩, ⟨3, false⟩]).2
    ⟨1, true⟩ (by decide) rfl
  have h2 := (exec0_C8_amended [⟨3, false⟩, ⟨1, false⟩, ⟨3, false⟩]).1
    (by decide)
  exact ⟨h.1, h.2.1, h2.1⟩

/-- C9: a non-zero exit is NOT always followed by a failure-glyph line on
the configured log sink: in Tee mode (the default) with the effective
`throwOnNonZero` false, `one` logs only the banner — `teeAndCapture`
returns the result without logging any glyph and the catch handler never
runs — and with `silent: true` nothing at all reaches the configured sink,
under any mode and exit code. -/
theorem exec0_C9_counterexample :
    Exec0.oneLogEvents .tee false false 1 = [.banner] ∧
    Exec0.LogEvent.failGlyph ∉ Exec0.oneLogEvents .tee false false 1 ∧
    Exec0.oneLogEvents .inherit true false 1 = [] := by
  refine ⟨rfl, by decide, rfl⟩

/-- C9 amended: for a child exiting non-zero with `silent` false, a
failure glyph is logged before `one` returns or raises in the Inherit,
Silent-capture and RealShell modes regardless of `throwOnNonZero`, and in
Tee mode exactly when `throwOnNonZero` is true (via the catch handler
while the failure propagates); with `silent` true nothing is written to
the configured sink. -/
theorem exec0_C9_amended (mode : Exec0.Interactive) (silent throwNZ : Bool)
    (code : Int) (hc : code ≠ 0) :
    (silent = false → mode ≠ .tee →
      Exec0.LogEvent.failGlyph ∈ Exec0.oneLogEvents mode silent throwNZ code) ∧
    (silent = false → throwNZ = true →
      Exec0.LogEvent.failGlyph ∈ Exec0.oneLogEvents mode silent throwNZ code) ∧
    (mode = .tee → silent = false → throwNZ = false →
      Exec0.LogEvent.failGlyph ∉ Exec0.oneLogEvents mode silent throwNZ code) ∧
    (silent = true → Exec0.oneLogEvents mode silent throwNZ code = []) := by
  cases mode <;> cases silent <;> cases throwNZ <;>
    simp [Exec0.oneLogEvents, hc]

/-- C9 amended, witnessed: with exit code 1, Inherit mode logs the glyph
even with `throwOnNonZero` false, and the silent Tee call logs nothing. -/
theorem exec0_C9_amended_witness :
    Exec0.LogEvent.failGlyph ∈ Exec0.oneLogEvents .inherit false false 1 ∧
    Exec0.oneLogEvents .tee true true 1 = [] := by
  have h1 := (exec0_C9_amended .inherit false false 1 (by decide)).1
    rfl (by decide)
  have h2 := (exec0_C9_amended .tee true true 1 (by decide)).2.2.2 rfl
  exact ⟨h1, h2⟩

/-- C10: an executor created with no `colors` setting and a call passing
no `colors` flag forces colors ON for the child: whatever the inherited
process environment and the factory/per-call env overlays said, the child
sees `FORCE_COLOR='3'`, `CLICOLOR='1'`, `CLICOLOR_FORCE='1'`,
`COLORTERM='truecolor'`, and `NO_COLOR` unset — `create` defaults `colors`
to true and `colorsEnv` is spread LAST into the composed environment, its
`NO_COLOR: undefined` assignment shadowing any earlier value with a value
the spawn primitive drops. -/
theorem exec0_C10_colors_default_force_on (pEnv fEnv cEnv : Exec0.EnvObj) :
    Exec0.effectiveColors none none = true ∧
    Exec0.childEnvLookup
        (Exec0.envForced pEnv fEnv cEnv (some (Exec0.effectiveColors none none)))
        "FORCE_COLOR" = some "3" ∧
    Exec0.childEnvLookup
        (Exec0.envForced pEnv fEnv cEnv (some (Exec0.effectiveColors none none)))
        "CLICOLOR" = some "1" ∧
    Exec0.childEnvLookup
        (Exec0.envForced pEnv fEnv cEnv (some (Exec0.effectiveColors none none)))
        "CLICOLOR_FORCE" = some "1" ∧
    Exec0.childEnvLookup
        (Exec0.envForced pEnv fEnv cEnv (some (Exec0.effectiveColors none none)))
        "COLORTERM" = some "truecolor" ∧
    Exec0.childEnvLookup
        (Exec0.envForced pEnv fEnv cEnv (some (Exec0.effectiveColors none none)))
        "NO_COLOR" = none := by
  refine ⟨rfl, ?_, ?_, ?_, ?_, ?_⟩ <;>
    simp [Exec0.childEnvLookup, Exec0.lookupLast, Exec0.envForced,
      Exec0.colorsEnv, Exec0.effectiveColors, Exec0.createColors,
      List.reverse_append, List.find?_append]
